import Mathlib

/-!
Verification development for the Deno LSP module-registry completion engine
(`cli/lsp/registries.rs`).  The schema compiler (`path_to_regex`: `parse`,
`Matcher`, `Compiler`) and the HTTP fetch collaborator are external to the
source under verification; their data model is embedded from the spec (§3, §6)
and their behaviour is abstracted by parameters, while every decision made in
`registries.rs` itself is translated directly.
-/

namespace Registries

/-- Completion item kinds produced by this module (`lsp::CompletionItemKind`:
only FILE and FOLDER are ever used by `registries.rs`). -/
inductive CompletionItemKind
  | file
  | folder
deriving DecidableEq

/-- Name of a schema key (`path_to_regex::StringOrNumber`, spec §3: key names
are strings; numeric names occur for unnamed capture groups). -/
inductive StringOrNumber
  | str : String → StringOrNumber
  | num : Nat → StringOrNumber
deriving DecidableEq

/-- Captured value of a key (`path_to_regex::StringOrVec`, spec §3: a single
string or an ordered list of strings for repeating keys). -/
inductive StringOrVec
  | str : String → StringOrVec
  | vec : List String → StringOrVec
deriving DecidableEq

/-- Key token (spec §3: `Key{name, prefix?, suffix?, modifier}`). -/
structure Key where
  name : StringOrNumber
  pfx : Option String
  sfx : Option String
  modifier : String
deriving DecidableEq

/-- Schema token (spec §3: `Literal(text)` or a key). -/
inductive Token
  | str : String → Token
  | key : Key → Token
deriving DecidableEq

/-- Match result produced by matching a path against a token-prefix matcher
(spec §3: mapping from key name to captured value). -/
structure MatchResult where
  params : List (StringOrNumber × StringOrVec)
deriving DecidableEq

/-- Modelled from the spec: rendering of a captured value
(`StringOrVec::to_string(Some(key))` of the external `path_to_regex`); spec
§4.3/§4.4: a list-valued capture renders joined by its key's repeat
separator. -/
def StringOrVec.render : StringOrVec → Option Key → String
  | StringOrVec.str s, _ => s
  | StringOrVec.vec xs, k =>
    let sep := match k with
      | some key => key.pfx.getD ""
      | none => ""
    match xs with
    | [] => ""
    | x :: rest => rest.foldl (fun acc y => acc ++ sep ++ y) x

/-- Lookup of a captured value by key name (`MatchResult::get`). -/
def MatchResult.get (mr : MatchResult) (name : String) : Option StringOrVec :=
  (mr.params.find? (fun p => p.1 == StringOrNumber.str name)).map (fun p => p.2)

/-- Resolved cursor classification (`CompletorType` in `registries.rs`). -/
inductive CompletorType
  | literal : String → CompletorType
  | key : Key → Option String → Nat → CompletorType
deriving DecidableEq

/-- Walk of `get_completor_type` (`registries.rs` lines 83-136): runs over the
tokens accumulating the running character length, with the source's exact
sequence of early returns. -/
def gctAux (offset : Nat) (mr : MatchResult) : List Token → Nat → Nat → Option CompletorType
  | [], _, _ => none
  | Token.str s :: rest, index, len =>
    if offset < len + s.length then some (CompletorType.literal s)
    else gctAux offset mr rest (index + 1) (len + s.length)
  | Token.key k :: rest, index, len =>
    let len1 := len + (match k.pfx with | some p => p.length | none => 0)
    if k.pfx.isSome && decide (offset < len1) then some (CompletorType.key k k.pfx index)
    else if offset < len1 then none
    else
      match k.name with
      | StringOrNumber.str name =>
        let value := match mr.get name with
          | some v => v.render (some k)
          | none => ""
        let len2 := len1 + value.length
        if offset ≤ len2 then some (CompletorType.key k none index)
        else
          match k.sfx with
          | some suf =>
            if offset ≤ len2 + suf.length then some (CompletorType.literal suf)
            else gctAux offset mr rest (index + 1) (len2 + suf.length)
          | none => gctAux offset mr rest (index + 1) len2
      | StringOrNumber.num _ =>
        match k.sfx with
        | some suf =>
          if offset ≤ len1 + suf.length then some (CompletorType.literal suf)
          else gctAux offset mr rest (index + 1) (len1 + suf.length)
        | none => gctAux offset mr rest (index + 1) len1

/-- Cursor resolver `get_completor_type(offset, tokens, match_result)`
(`registries.rs` lines 83-136). -/
def get_completor_type (offset : Nat) (tokens : List Token) (mr : MatchResult) :
    Option CompletorType :=
  gctAux offset mr tokens 0 0

/-- ASCII digit character, as produced by Rust's decimal `Display`. -/
def digitChar (n : Nat) : Char := Char.ofNat (48 + n)

/-- Fueled most-significant-digit-first decimal rendering of a natural number
(the decimal rendering Rust's `format!` performs for `usize`). -/
def natDecimalAux : Nat → Nat → List Char
  | 0, _ => []
  | fuel + 1, n =>
    if n < 10 then [digitChar n]
    else natDecimalAux fuel (n / 10) ++ [digitChar (n % 10)]

/-- Decimal rendering of a natural number, most significant digit first. -/
def natDecimal (n : Nat) : List Char := natDecimalAux (n + 1) n

/-- Zero left-padding to a minimum width of ten characters, as performed by
`format!("{:0>10}", idx + 1)` at `registries.rs` lines 548 and 636. -/
def pad10 (n : Nat) : List Char :=
  List.replicate (10 - (natDecimal n).length) '0' ++ natDecimal n

/-- Sort text of the dynamic completion item built from the fetched item at
0-based index `idx` (`registries.rs` line 548: `format!("{:0>10}", idx + 1)`). -/
def sortTextDyn (idx : Nat) : String := String.mk (pad10 (idx + 1))

/-- Cache-trigger command attached to a completion item (`lsp::Command` with
`command: "deno.cache"` and the item specifier as argument,
`registries.rs` lines 538-541). -/
structure LspCommand where
  title : String
  cmd : String
  argument : String
deriving DecidableEq

/-- Completion item as assembled by `registries.rs` (the `textEdit` is
represented by its replacement text, the range being a fixed input). -/
structure CompletionItem where
  label : String
  kind : CompletionItemKind
  detail : Option String
  sortText : Option String
  filterText : Option String
  textEdit : Option String
  command : Option LspCommand
deriving DecidableEq

/-- Display of a `StringOrNumber` (used by `format!("({})", key.name)`). -/
def StringOrNumber.render : StringOrNumber → String
  | StringOrNumber.str s => s
  | StringOrNumber.num n => Nat.repr n

/-- Name the dynamic-item classification compares against (`registries.rs`
lines 467-478): the name of the **last token** when that token is a key with a
string name, and the empty string otherwise, wrapped as a `StringOrNumber`. -/
def last_key_name (tokens : List Token) : StringOrNumber :=
  StringOrNumber.str
    (match tokens.getLast? with
     | some (Token.key k) =>
       match k.name with
       | StringOrNumber.str s => s
       | _ => ""
     | _ => "")

/-- Dynamic completion item built for one fetched item (`registries.rs`
lines 509-561): `item_specifier` stands for the rendered specifier
`base.join(compiler.to_path(params))` (external `path_to_regex::Compiler`),
and `specifier_exists` is the `exists_predicate` of the call. -/
def make_key_item (tokens : List Token) (k : Key) (pfxOpt : Option String)
    (item : String) (idx : Nat) (item_specifier : String)
    (specifier_exists : String → Bool) : CompletionItem :=
  { label := match pfxOpt with
      | some p => p ++ item
      | none => item
    kind := if k.name = last_key_name tokens then CompletionItemKind.file
            else CompletionItemKind.folder
    detail := some ("(" ++ k.name.render ++ ")")
    sortText := some (sortTextDyn idx)
    filterText := some item_specifier
    textEdit := some item_specifier
    command := if k.name = last_key_name tokens ∧ specifier_exists item_specifier = false
               then some { title := "", cmd := "deno.cache", argument := item_specifier }
               else none }

/-- Literal completion built by `complete_literal` (`registries.rs`
lines 323-358); note the source's `s[0..]` is the whole of `s`, so the label is
`s` in both branches. -/
def complete_literal_item (s : String) (current_specifier : String) (offset : Nat) :
    CompletionItem :=
  let label := if s.startsWith "/" then s else s
  let full_text := (current_specifier.take offset) ++ s ++ (current_specifier.drop offset)
  { label := label
    kind := CompletionItemKind.folder
    detail := none
    sortText := some "1"
    filterText := some full_text
    textEdit := some full_text
    command := none }

/-- Outcome of the prefix-shortening matcher loop of `get_completions`
(`registries.rs` lines 479-658): a match of some prefix length with its
captures, the first-token fallback reached when the length has been decremented
down to zero, or the unsigned underflow of `i -= 1` executed at `i == 0`. -/
inductive LoopOutcome
  | matched : Nat → MatchResult → LoopOutcome
  | fallback : LoopOutcome
  | underflow : LoopOutcome
deriving DecidableEq

/-- Prefix-shortening loop of `get_completions` (`registries.rs` lines
466-658), abstracted over the external matcher: `f i` is the result of
`Matcher::new(&tokens[..i]).matches(path)`.  Mirrors the source exactly: try
the current length; on success stop; otherwise execute `i -= 1` (an unsigned
underflow when `i` is already `0`) and, when the decremented length is zero,
take the first-token fallback instead of building another matcher. -/
def matchLoop (f : Nat → Option MatchResult) : Nat → LoopOutcome
  | 0 =>
    match f 0 with
    | some mr => LoopOutcome.matched 0 mr
    | none => LoopOutcome.underflow
  | i + 1 =>
    match f (i + 1) with
    | some mr => LoopOutcome.matched (i + 1) mr
    | none => if i = 0 then LoopOutcome.fallback else matchLoop f i

/-- Number of matcher constructions/attempts the loop performs
(`Matcher::new`/`matches` invocations in `registries.rs` lines 480-488). -/
def matchLoopAttempts (f : Nat → Option MatchResult) : Nat → Nat
  | 0 => 1
  | i + 1 =>
    match f (i + 1) with
    | some _ => 1
    | none => if i = 0 then 1 else 1 + matchLoopAttempts f i

/-- Association-list store with the lookup/contains semantics of the source's
`HashMap` (iteration order of a `HashMap` is unspecified, so an insert is
modelled as erase-then-append, which preserves lookup, key-set and value
multiset). -/
def assocLookup {β : Type} (k : String) (m : List (String × β)) : Option β :=
  (m.find? (fun q => q.1 == k)).map (fun q => q.2)

/-- Erasure of every entry stored under key `k` (`HashMap::remove`). -/
def assocErase {β : Type} (m : List (String × β)) (k : String) : List (String × β) :=
  m.filter (fun q => !(q.1 == k))

/-- Insertion with overwrite (`HashMap::insert`: the new value replaces any
value previously stored under the same key). -/
def assocInsert {β : Type} (m : List (String × β)) (p : String × β) : List (String × β) :=
  assocErase m p.1 ++ [p]

/-- Observable effect of processing one registry inside `get_completions`
(`registries.rs` lines 457-658): whether its matcher structurally matched the
path (`did_match` is set at line 489), and the ordered list of
`completions.insert(raw_text, item)` calls it performs (lines 549, 590, 637;
the raw unrendered item/literal text is the map key). -/
structure RegEffect where
  matched : Bool
  inserts : List (String × CompletionItem)
deriving DecidableEq

/-- Accumulation of the registry loop of `get_completions` (`registries.rs`
lines 455-659): registries are processed in order, each inserting its
completions into the shared `HashMap` and OR-ing into `did_match`. -/
def run_registries (effects : List RegEffect) :
    List (String × CompletionItem) × Bool :=
  effects.foldl
    (fun acc e => (e.inserts.foldl assocInsert acc.1, acc.2 || e.matched))
    ([], false)

/-- Final return of `get_completions` (`registries.rs` lines 663-667):
`None` exactly when the completion map is empty and no registry matched,
otherwise the collected completion items. -/
def get_completions_result (effects : List RegEffect) : Option (List CompletionItem) :=
  let acc := run_registries effects
  if acc.1.isEmpty && !acc.2 then none
  else some (acc.1.map (fun q => q.2))

/-- Word character of the `\w` class in the replacement-variable pattern
`\$\{\{?(\w+)\}?\}` (`registries.rs` lines 62-65). -/
def isWordChar (c : Char) : Bool := c.isAlphanum || c == '_'

/-- Match of the pattern `\$\{\{?(\w+)\}?\}` at the head of the character
list: `$`, `{`, an optional second `{` (which, if consumed, must be followed by
a word character, exactly as the regex backtracks), one or more word
characters (captured), then `}}` if present or else a single `}`.  Returns the
capture and the remaining characters. -/
def matchVar : List Char → Option (String × List Char)
  | '$' :: '{' :: rest =>
    let rest1 := match rest with
      | '{' :: r => r
      | _ => rest
    match rest1.span isWordChar with
    | ([], _) => none
    | (w, rest2) =>
      match rest2 with
      | '}' :: '}' :: r => some (String.mk w, r)
      | '}' :: r => some (String.mk w, r)
      | _ => none
  | _ => none

/-- Fueled scan for all non-overlapping leftmost matches of the
replacement-variable pattern (`Regex::captures_iter`); the fuel is the input
length, which each step strictly consumes. -/
def scanVarsF : Nat → List Char → List String
  | 0, _ => []
  | _, [] => []
  | fuel + 1, c :: cs =>
    match matchVar (c :: cs) with
    | some (w, rest) => w :: scanVarsF fuel rest
    | none => scanVarsF fuel cs

/-- Replacement-variable extraction `parse_replacement_variables`
(`registries.rs` lines 167-172): all captures of `\$\{\{?(\w+)\}?\}`. -/
def parse_replacement_variables (s : String) : List String :=
  scanVarsF s.data.length s.data

/-- Index of the first element satisfying the predicate
(`Iterator::position`, as used at `registries.rs` lines 209 and 219). -/
def listPosition {α : Type} (p : α → Bool) : List α → Option Nat
  | [] => none
  | a :: as => if p a then some 0 else (listPosition p as).map (fun i => i + 1)

/-- Variable declaration of a registry configuration
(`RegistryConfigurationVariable`). -/
structure RegistryConfigurationVariable where
  key : String
  url : String
deriving DecidableEq

/-- Registry configuration.  Modelled from the spec: the external Schema
Compiler (`string_to_regex`) turns the schema template into its ordered list of
string key names (spec §4.1: "collect the ordered list of key names appearing
as Key tokens, schema-position order"); the configuration is represented by
that key-name list together with its variable declarations. -/
structure RegistryConfiguration where
  keyNames : List String
  vars : List RegistryConfigurationVariable
deriving DecidableEq

/-- Top-level registry configuration JSON (`RegistryConfigurationJson`). -/
structure RegistryConfigurationJson where
  version : Nat
  registries : List RegistryConfiguration
deriving DecidableEq

/-- Short-circuiting iteration in the `Except` monad, the shape of the
source's `for` loops with early `return Err(...)`. -/
def exceptForM {α : Type} : List α → (α → Except String Unit) → Except String Unit
  | [], _ => Except.ok ()
  | a :: as, f =>
    match f a with
    | Except.ok _ => exceptForM as f
    | Except.error e => Except.error e

/-- Per-registry checks of `validate_config` (`registries.rs` lines 182-225):
every key name must have a variable declaration; every variable's key must
occur in the schema; every replacement variable referenced from a variable's
URL must not be the variable's own key and must occur among the keys strictly
before the variable's key position. -/
def checkRegistry (r : RegistryConfiguration) : Except String Unit :=
  match exceptForM r.keyNames
      (fun key_name =>
        if r.vars.any (fun v => v.key == key_name) then Except.ok ()
        else Except.error "missing variable declaration for key") with
  | Except.error e => Except.error e
  | Except.ok _ =>
    exceptForM r.vars
      (fun vr =>
        match listPosition (fun key => key == vr.key) r.keyNames with
        | none => Except.error "missing a path parameter in schema for variable"
        | some key_index =>
          exceptForM (parse_replacement_variables vr.url)
            (fun v =>
              if vr.key == v then Except.error "self reference"
              else if (r.keyNames.take key_index).any (fun key => key == v) then
                Except.ok ()
              else Except.error "schema defines the reference to the right of the variable"))

/-- Configuration validation `validate_config` (`registries.rs`
lines 175-229). -/
def validate_config (config : RegistryConfigurationJson) : Except String Unit :=
  if config.version ≠ 1 then Except.error "expected version 1"
  else exceptForM config.registries checkRegistry

/-- Decidable form of the per-variable reference condition: the variable's key
occurs in the schema and every replacement variable it references occurs among
the keys strictly before it. -/
def varOk (r : RegistryConfiguration) (vr : RegistryConfigurationVariable) : Bool :=
  match listPosition (fun key => key == vr.key) r.keyNames with
  | none => false
  | some i =>
    (parse_replacement_variables vr.url).all
      (fun v => (r.keyNames.take i).any (fun key => key == v))

/-- Decidable form of the per-registry well-formedness condition. -/
def registryOk (r : RegistryConfiguration) : Bool :=
  r.keyNames.all (fun kn => r.vars.any (fun v => v.key == kn))
    && r.vars.all (varOk r)

/-- Enable operation (`registries.rs` lines 410-422), abstracted over the
external collaborators: `parseOrigin` is `Url::parse` followed by `base_url`
normalization, `joinConfig` is `origin_url.join(CONFIG_PATH)`, and `fetchRes`
is the outcome of `fetch_config` (fetch + JSON decode + `validate_config`).
Returns the call's result together with the resulting origin store. -/
def enableM (parseOrigin : String → Option String) (joinConfig : Option String)
    (fetchRes : Except String (List RegistryConfiguration))
    (origins : List (String × List RegistryConfiguration)) (origin : String) :
    Except String Unit × List (String × List RegistryConfiguration) :=
  match parseOrigin origin with
  | none => (Except.error "invalid url", origins)
  | some o =>
    if origins.any (fun q => q.1 == o) then (Except.ok (), origins)
    else
      match joinConfig with
      | none => (Except.error "invalid config url", origins)
      | some _ =>
        match fetchRes with
        | Except.error e => (Except.error e, origins)
        | Except.ok configs => (Except.ok (), assocInsert origins (o, configs))

/-- Disable operation (`registries.rs` lines 361-365): parse the origin,
normalize it, and remove its entry from the store. -/
def disableM (parseOrigin : String → Option String)
    (origins : List (String × List RegistryConfiguration)) (origin : String) :
    Except String Unit × List (String × List RegistryConfiguration) :=
  match parseOrigin origin with
  | none => (Except.error "invalid url", origins)
  | some o => (Except.ok (), assocErase origins o)

/-- Fixed-width most-significant-digit-first decimal rendering: the last `k`
decimal digits of `n`, zero-padded to exactly `k` characters. -/
def decFix : Nat → Nat → List Char
  | 0, _ => []
  | k + 1, n => decFix k (n / 10) ++ [digitChar (n % 10)]

/-- Last key token of a token sequence — the claim's notion of "the last key
appearing in the schema's token sequence". -/
def lastKeyInTokens (tokens : List Token) : Option Key :=
  (tokens.filterMap (fun t => match t with | Token.key k => some k | _ => none)).getLast?

/-- Module key of the spec §8 schema `/:module@:version/:path*`.  Modelled
from the spec: tokenization of the schema by the external Schema Compiler
(spec §3: `Key{name, prefix?, suffix?, modifier}`). -/
def c5ModuleKey : Key := { name := StringOrNumber.str "module", pfx := some "/", sfx := none, modifier := "" }

/-- Version key of the spec §8 schema (its delimiter `@` is its prefix). -/
def c5VersionKey : Key := { name := StringOrNumber.str "version", pfx := some "@", sfx := none, modifier := "" }

/-- Path key of the spec §8 schema (repeated segment, modifier `*`). -/
def c5PathKey : Key := { name := StringOrNumber.str "path", pfx := some "/", sfx := none, modifier := "*" }

/-- Token sequence of the spec §8 schema `/:module@:version/:path*`. -/
def c5Tokens : List Token := [Token.key c5ModuleKey, Token.key c5VersionKey, Token.key c5PathKey]

/-- Full-schema match of the spec §8 scenario: `module = "x"`,
`version = "a@v1.0.0"`, `path` empty. -/
def c5Match : MatchResult :=
  { params := [(StringOrNumber.str "module", StringOrVec.str "x"),
               (StringOrNumber.str "version", StringOrVec.str "a@v1.0.0"),
               (StringOrNumber.str "path", StringOrVec.vec [])] }

/-- Module key of the counterexample schema `/:module/mod.ts`. -/
def cexModKey : Key := { name := StringOrNumber.str "module", pfx := some "/", sfx := none, modifier := "" }

/-- Token sequence of a schema whose last token is a literal while its last
key is `module` (such as `/:module/mod.ts`). -/
def cexTokens : List Token := [Token.key cexModKey, Token.str "/mod.ts"]

/-- Completion item an earlier registry contributes for raw text `"k"`. -/
def cexItemA : CompletionItem :=
  { label := "a", kind := CompletionItemKind.folder, detail := none, sortText := none,
    filterText := none, textEdit := none, command := none }

/-- Distinct completion item a later registry contributes for the same raw
text `"k"`. -/
def cexItemB : CompletionItem :=
  { label := "b", kind := CompletionItemKind.folder, detail := none, sortText := none,
    filterText := none, textEdit := none, command := none }

/-- Variable declaration for `module` (no replacement references), from the
source's accepted test configuration. -/
def goodModuleVar : RegistryConfigurationVariable :=
  { key := "module", url := "https://api.deno.land/modules?short" }

/-- Variable declaration for `version`, referencing the earlier `module`. -/
def goodVersionVar : RegistryConfigurationVariable :=
  { key := "version", url := "https://deno.land/_vsc1/module/${module}" }

/-- Variable declaration for `path`, referencing the earlier `module` (raw) and
`version` (percent-encoded). -/
def goodPathVar : RegistryConfigurationVariable :=
  { key := "path", url := "https://deno.land/_vsc1/module/${module}/v/${{version}}" }

/-- Accepted registry configuration of schema `/:module@:version/:path*` (its
ordered key names) with legal reference order. -/
def goodRegistry : RegistryConfiguration :=
  { keyNames := ["module", "version", "path"],
    vars := [goodModuleVar, goodVersionVar, goodPathVar] }

/-- Accepted top-level configuration (version 1). -/
def goodConfig : RegistryConfigurationJson :=
  { version := 1, registries := [goodRegistry] }

theorem natDecimalAux_irrel :
    ∀ f₁ f₂ n : Nat, n < f₁ → n < f₂ → natDecimalAux f₁ n = natDecimalAux f₂ n := by
  intro f₁
  induction f₁ with
  | zero => intro f₂ n h _; exact absurd h (Nat.not_lt_zero n)
  | succ f ih =>
    intro f₂ n h1 h2
    cases f₂ with
    | zero => exact absurd h2 (Nat.not_lt_zero n)
    | succ g =>
      simp only [natDecimalAux]
      by_cases h10 : n < 10
      · simp [h10]
      · have hdiv : n / 10 < n := Nat.div_lt_self (by omega) (by norm_num)
        rw [if_neg h10, if_neg h10, ih g (n / 10) (by omega) (by omega)]

theorem natDecimal_eq (n : Nat) :
    natDecimal n =
      if n < 10 then [digitChar n] else natDecimal (n / 10) ++ [digitChar (n % 10)] := by
  by_cases h : n < 10
  · simp [natDecimal, natDecimalAux, h]
  · have hdiv : n / 10 < n := Nat.div_lt_self (by omega) (by norm_num)
    rw [if_neg h]
    show natDecimalAux (n + 1) n = natDecimalAux (n / 10 + 1) (n / 10) ++ [digitChar (n % 10)]
    conv_lhs => rw [natDecimalAux]
    rw [if_neg h, natDecimalAux_irrel n (n / 10 + 1) (n / 10) (by omega) (by omega)]

theorem natDecimal_length_pos (n : Nat) : 0 < (natDecimal n).length := by
  rw [natDecimal_eq]
  by_cases h : n < 10
  · simp [h]
  · simp [h, List.length_append]

theorem natDecimal_length_le :
    ∀ k n : Nat, 1 ≤ k → n < 10 ^ k → (natDecimal n).length ≤ k := by
  intro k
  induction k with
  | zero => intro n h _; exact absurd h (by norm_num)
  | succ k ih =>
    intro n _ hn
    rw [natDecimal_eq]
    by_cases h : n < 10
    · simp [h]
    · have hk : 1 ≤ k := by
        rcases Nat.eq_zero_or_pos k with rfl | hpos
        · norm_num at hn
          exact absurd hn h
        · exact hpos
      have hdiv : n / 10 < 10 ^ k := by
        rw [Nat.div_lt_iff_lt_mul (by norm_num)]
        calc n < 10 ^ (k + 1) := hn
        _ = 10 ^ k * 10 := pow_succ 10 k
      have := ih (n / 10) hk hdiv
      simp only [if_neg h, List.length_append, List.length_cons, List.length_nil]
      omega

theorem natDecimal_length_ge :
    ∀ k n : Nat, 10 ^ k ≤ n → k + 1 ≤ (natDecimal n).length := by
  intro k
  induction k with
  | zero => intro n _; have := natDecimal_length_pos n; omega
  | succ k ih =>
    intro n hn
    have h1 : 1 ≤ 10 ^ k := Nat.one_le_pow _ _ (by norm_num)
    have hp : 10 ^ (k + 1) = 10 ^ k * 10 := pow_succ 10 k
    have h10 : ¬ n < 10 := by
      have : (10 : Nat) ≤ 10 ^ k * 10 := by
        calc (10 : Nat) = 1 * 10 := (one_mul 10).symm
        _ ≤ 10 ^ k * 10 := Nat.mul_le_mul_right 10 h1
      omega
    rw [natDecimal_eq, if_neg h10]
    have hdiv : 10 ^ k ≤ n / 10 := by
      rw [Nat.le_div_iff_mul_le (by norm_num)]
      omega
    have := ih (n / 10) hdiv
    simp only [List.length_append, List.length_cons, List.length_nil]
    omega

theorem decFix_length : ∀ k n : Nat, (decFix k n).length = k := by
  intro k
  induction k with
  | zero => intro n; simp [decFix]
  | succ k ih => intro n; simp [decFix, ih]

theorem decFix_zero_cons :
    ∀ k n : Nat, n < 10 ^ k → decFix (k + 1) n = '0' :: decFix k n := by
  intro k
  induction k with
  | zero =>
    intro n hn
    have : n = 0 := by simpa using hn
    subst this
    decide
  | succ k ih =>
    intro n hn
    have hdiv : n / 10 < 10 ^ k := by
      rw [Nat.div_lt_iff_lt_mul (by norm_num)]
      calc n < 10 ^ (k + 1) := hn
      _ = 10 ^ k * 10 := pow_succ 10 k
    show decFix (k + 1) (n / 10) ++ [digitChar (n % 10)] = '0' :: decFix (k + 1) n
    rw [ih (n / 10) hdiv]
    simp [decFix, List.cons_append]

theorem decFix_eq_natDecimal :
    ∀ k n : Nat, 10 ^ k ≤ n → n < 10 ^ (k + 1) → decFix (k + 1) n = natDecimal n := by
  intro k
  induction k with
  | zero =>
    intro n h1 h2
    have hn : n < 10 := by simpa using h2
    rw [natDecimal_eq, if_pos hn]
    show decFix 0 (n / 10) ++ [digitChar (n % 10)] = [digitChar n]
    simp [decFix, Nat.mod_eq_of_lt hn]
  | succ k ih =>
    intro n h1 h2
    have hone : 1 ≤ 10 ^ k := Nat.one_le_pow _ _ (by norm_num)
    have hp : 10 ^ (k + 1) = 10 ^ k * 10 := pow_succ 10 k
    have h10 : ¬ n < 10 := by
      have : (10 : Nat) ≤ 10 ^ k * 10 := by
        calc (10 : Nat) = 1 * 10 := (one_mul 10).symm
        _ ≤ 10 ^ k * 10 := Nat.mul_le_mul_right 10 hone
      omega
    rw [natDecimal_eq, if_neg h10]
    show decFix (k + 1) (n / 10) ++ [digitChar (n % 10)] = _
    rw [ih (n / 10) ?_ ?_]
    · rw [Nat.le_div_iff_mul_le (by norm_num)]
      omega
    · rw [Nat.div_lt_iff_lt_mul (by norm_num)]
      calc n < 10 ^ (k + 2) := h2
      _ = 10 ^ (k + 1) * 10 := pow_succ 10 (k + 1)

theorem pad_eq_decFix :
    ∀ k n : Nat, 1 ≤ k → n < 10 ^ k →
      List.replicate (k - (natDecimal n).length) '0' ++ natDecimal n = decFix k n := by
  intro k
  induction k with
  | zero => intro n h _; exact absurd h (by norm_num)
  | succ k ih =>
    intro n _ hn
    by_cases hk : k = 0
    · subst hk
      have hn' : n < 10 := by simpa using hn
      rw [natDecimal_eq, if_pos hn']
      show _ = decFix 0 (n / 10) ++ [digitChar (n % 10)]
      simp [decFix, Nat.mod_eq_of_lt hn']
    · have hk1 : 1 ≤ k := Nat.one_le_iff_ne_zero.mpr hk
      by_cases hsm : n < 10 ^ k
      · rw [decFix_zero_cons k n hsm, ← ih n hk1 hsm]
        have hlen : (natDecimal n).length ≤ k := natDecimal_length_le k n hk1 hsm
        have heq : k + 1 - (natDecimal n).length = (k - (natDecimal n).length) + 1 := by omega
        rw [heq, List.replicate_succ, List.cons_append]
      · have hge : 10 ^ k ≤ n := Nat.le_of_not_lt hsm
        rw [decFix_eq_natDecimal k n hge hn]
        have h1 : k + 1 ≤ (natDecimal n).length := natDecimal_length_ge k n hge
        have heq : k + 1 - (natDecimal n).length = 0 := by omega
        simp [heq]

theorem lex_append_right {α : Type} {r : α → α → Prop} :
    ∀ {xs ys : List α}, List.Lex r xs ys → xs.length = ys.length →
      ∀ u v : List α, List.Lex r (xs ++ u) (ys ++ v) := by
  intro xs ys h
  induction h with
  | nil => intro hlen; simp at hlen
  | cons h ih =>
    intro hlen u v
    exact List.Lex.cons (ih (by simpa using hlen) u v)
  | rel h => intro _ u v; exact List.Lex.rel h

theorem lex_append_head {α : Type} {r : α → α → Prop} {c d : α} (h : r c d) :
    ∀ xs u v : List α, List.Lex r (xs ++ c :: u) (xs ++ d :: v) := by
  intro xs u v
  induction xs with
  | nil => exact List.Lex.rel h
  | cons x xs ih => exact List.Lex.cons ih

theorem digitChar_lt : ∀ a b : Nat, a < b → b < 10 → digitChar a < digitChar b := by
  intro a b hab hb
  interval_cases b <;> interval_cases a <;> decide

theorem decFix_lt :
    ∀ k m n : Nat, m < n → n < 10 ^ k → List.Lex (· < ·) (decFix k m) (decFix k n) := by
  intro k
  induction k with
  | zero =>
    intro m n hmn hn
    have : n = 0 := by simpa using hn
    omega
  | succ k ih =>
    intro m n hmn hn
    have hq : m / 10 ≤ n / 10 := Nat.div_le_div_right (le_of_lt hmn)
    rcases Nat.lt_or_ge (m / 10) (n / 10) with hlt | hge
    · have hnk : n / 10 < 10 ^ k := by
        rw [Nat.div_lt_iff_lt_mul (by norm_num)]
        calc n < 10 ^ (k + 1) := hn
        _ = 10 ^ k * 10 := pow_succ 10 k
      show List.Lex (· < ·) (decFix k (m / 10) ++ [digitChar (m % 10)])
        (decFix k (n / 10) ++ [digitChar (n % 10)])
      exact lex_append_right (ih (m / 10) (n / 10) hlt hnk)
        (by rw [decFix_length, decFix_length]) _ _
    · have heq : m / 10 = n / 10 := le_antisymm hq hge
      have h1 := Nat.div_add_mod m 10
      have h2 := Nat.div_add_mod n 10
      have hr : m % 10 < n % 10 := by omega
      show List.Lex (· < ·) (decFix k (m / 10) ++ [digitChar (m % 10)])
        (decFix k (n / 10) ++ [digitChar (n % 10)])
      rw [heq]
      exact lex_append_head (digitChar_lt _ _ hr (Nat.mod_lt n (by norm_num))) _ _ _

theorem sortTextDyn_toList (idx : Nat) (h : idx + 1 < 10 ^ 10) :
    (sortTextDyn idx).toList = decFix 10 (idx + 1) := by
  show List.replicate (10 - (natDecimal (idx + 1)).length) '0' ++ natDecimal (idx + 1) = _
  exact pad_eq_decFix 10 (idx + 1) (by norm_num) h

theorem sortTextDyn_lt_one (idx : Nat) (h : idx + 1 < 10 ^ 9) : sortTextDyn idx < "1" := by
  rw [String.lt_iff_toList_lt, sortTextDyn_toList idx (by omega)]
  rw [show (10 : Nat) = 9 + 1 from rfl, decFix_zero_cons 9 (idx + 1) h]
  exact List.Lex.rel (by decide)

theorem sortTextDyn_mono (i j : Nat) (hij : i < j) (hj : j + 1 < 10 ^ 10) :
    sortTextDyn i < sortTextDyn j := by
  rw [String.lt_iff_toList_lt, sortTextDyn_toList i (by omega), sortTextDyn_toList j hj]
  exact decFix_lt 10 (i + 1) (j + 1) (by omega) hj

/-- C4: the prefix-shortening search of `get_completions` returns the result of
the longest matching token prefix: it tries the full length first, decrements
by one on each failure, and stops at the first success before the length
reaches zero; when the length-`L` matcher succeeds and every longer prefix
fails, the returned length and captures are exactly those of the length-`L`
matcher. -/
theorem longest_prefix_match (f : Nat → Option MatchResult) (n L : Nat) (mr : MatchResult)
    (hL1 : 1 ≤ L) (hLn : L ≤ n) (hmatch : f L = some mr)
    (hfail : ∀ l, L < l → l ≤ n → f l = none) :
    matchLoop f n = LoopOutcome.matched L mr := by
  induction n with
  | zero => omega
  | succ n ih =>
    by_cases hEq : L = n + 1
    · subst hEq
      simp [matchLoop, hmatch]
    · have hLn' : L ≤ n := by omega
      have hfn : f (n + 1) = none := hfail (n + 1) (by omega) (le_refl _)
      have hn0 : n ≠ 0 := by omega
      simp only [matchLoop, hfn, if_neg hn0]
      exact ih hLn' (fun l h1 h2 => hfail l h1 (by omega))

/-- Witness for `longest_prefix_match`: with prefixes of length 3 failing and
length 2 matching, the loop returns the length-2 match. -/
theorem longest_prefix_match_w :
    matchLoop (fun i => if i = 2 then some { params := [] } else none) 3 =
      LoopOutcome.matched 2 { params := [] } :=
  longest_prefix_match (fun i => if i = 2 then some { params := [] } else none) 3 2
    { params := [] } (by norm_num) (by norm_num) rfl
    (fun l h1 h2 => by
      have : l = 3 := by omega
      subst this
      rfl)

/-- C9 (amended): for a nonempty compiled token sequence the prefix-shortening
loop performs at most `tokens.len()` matcher attempts and never executes the
decrement at length zero; the original claim's "including when the compiled
token sequence is empty" fails (see `match_loop_underflow_cex`). -/
theorem match_loop_bound (f : Nat → Option MatchResult) (n : Nat) (h : 1 ≤ n) :
    matchLoopAttempts f n ≤ n ∧ matchLoop f n ≠ LoopOutcome.underflow := by
  induction n with
  | zero => omega
  | succ n ih =>
    constructor
    · simp only [matchLoopAttempts]
      cases hf : f (n + 1) with
      | some mr => simp
      | none =>
        by_cases hn : n = 0
        · simp [hn]
        · have h1 : 1 ≤ n := by omega
          have := (ih h1).1
          simp only [if_neg hn]
          omega
    · simp only [matchLoop]
      cases hf : f (n + 1) with
      | some mr => simp
      | none =>
        by_cases hn : n = 0
        · simp [hn]
        · have h1 : 1 ≤ n := by omega
          simp only [if_neg hn]
          exact (ih h1).2

/-- Witness for `match_loop_bound`: with three tokens and an always-failing
matcher, at most three attempts are made and no underflow occurs. -/
theorem match_loop_bound_w :
    matchLoopAttempts (fun _ => none) 3 ≤ 3 ∧
      matchLoop (fun _ => none) 3 ≠ LoopOutcome.underflow :=
  match_loop_bound (fun _ => none) 3 (by norm_num)

/-- Counterexample to C9 as stated: when the compiled token sequence is empty
(`i` starts at `0`) and the empty-prefix matcher rejects the path, the source
executes `i -= 1` with `i == 0` — an unsigned-integer underflow — after one
matcher attempt, contradicting the claim's "including when the compiled token
sequence is empty". -/
theorem match_loop_underflow_cex :
    matchLoop (fun _ => none) 0 = LoopOutcome.underflow ∧
      matchLoopAttempts (fun _ => none) 0 = 1 :=
  ⟨rfl, rfl⟩

/-- C5: for the spec §8 schema `/:module@:version/:path*` fully matched with
`module = "x"`, `version = "a@v1.0.0"` and `path` empty, the cursor resolver at
the character offset immediately after the trailing slash of the matched path
(offset 12, the path including its leading slash) classifies the cursor as the
`path` key — a `Key` classification, not a `Literal` one. -/
theorem completor_path_key :
    get_completor_type 12 c5Tokens c5Match = some (CompletorType.key c5PathKey none 2) := by
  decide

/-- Counterexample to C1 as stated: for a schema whose token sequence ends in
a literal (`/:module/mod.ts`), the `module` key **is** the last key appearing
in the token sequence, yet the dynamic item built for it has kind FOLDER and
no cache-trigger command (the source compares against the name of the last
*token*, which here is a literal, yielding the empty-string sentinel). -/
theorem kind_last_key_cex :
    lastKeyInTokens cexTokens = some cexModKey ∧
    (make_key_item cexTokens cexModKey (some "/") "a" 0 "https://example.com/a/mod.ts"
        (fun _ => false)).kind = CompletionItemKind.folder ∧
    (make_key_item cexTokens cexModKey (some "/") "a" 0 "https://example.com/a/mod.ts"
        (fun _ => false)).command = none := by
  refine ⟨rfl, ?_, ?_⟩ <;> decide

/-- C1 (amended): a dynamic item's kind is FILE iff the key's name equals
`last_key_name` — the name of the **last token** when that token is a
string-named key (and the empty-string sentinel otherwise) — and the
cache-trigger command is attached iff that same condition holds and
`exists_predicate` returns false for the item's rendered specifier. -/
theorem kind_last_token_key (tokens : List Token) (k : Key) (pfxOpt : Option String)
    (item : String) (idx : Nat) (spec : String) (ex : String → Bool) :
    ((make_key_item tokens k pfxOpt item idx spec ex).kind = CompletionItemKind.file ↔
      k.name = last_key_name tokens) ∧
    ((make_key_item tokens k pfxOpt item idx spec ex).command ≠ none ↔
      (k.name = last_key_name tokens ∧ ex spec = false)) := by
  constructor
  · by_cases h : k.name = last_key_name tokens <;> simp [make_key_item, h]
  · by_cases h : k.name = last_key_name tokens ∧ ex spec = false <;>
      simp [make_key_item, h]

/-- Counterexample to C2 as stated: the literal completion's sort key is `"1"`
while the first dynamic item's sort key is `"0000000001"`, and
`"0000000001" < "1"` lexicographically — so the literal does **not** order
before the dynamic item; the dynamic item orders before the literal. -/
theorem sort_text_order_cex :
    (complete_literal_item "/x" "http://localhost:4545" 21).sortText = some "1" ∧
    (make_key_item c5Tokens c5PathKey none "a" 0 "http://localhost:4545/x/a"
        (fun _ => false)).sortText = some (sortTextDyn 0) ∧
    sortTextDyn 0 = "0000000001" ∧
    sortTextDyn 0 < "1" ∧
    ¬ ("1" < sortTextDyn 0) :=
  ⟨rfl, rfl, by decide, sortTextDyn_lt_one 0 (by norm_num),
    lt_asymm (sortTextDyn_lt_one 0 (by norm_num))⟩

/-- C2 (amended): the literal completion's sort key is the fixed `"1"` and the
dynamic item at 0-based index `idx` carries the zero-padded 1-based index
`sortTextDyn idx` as its sort key; lexicographically the dynamic items order
**before** the literal (for fewer than `10^9` items), and among themselves the
dynamic items are ordered by their 1-based zero-padded index, preserving
server-provided order (for fewer than `10^10` items). -/
theorem sort_text_order_amended (s cur : String) (off : Nat) (tokens : List Token)
    (k : Key) (p : Option String) (item spec : String) (ex : String → Bool) (i j : Nat)
    (hij : i < j) (hj : j + 1 < 10 ^ 10) (hi : i + 1 < 10 ^ 9) :
    (complete_literal_item s cur off).sortText = some "1" ∧
    (make_key_item tokens k p item i spec ex).sortText = some (sortTextDyn i) ∧
    sortTextDyn i < "1" ∧
    sortTextDyn i < sortTextDyn j :=
  ⟨rfl, rfl, sortTextDyn_lt_one i hi, sortTextDyn_mono i j hij hj⟩

/-- Witness for `sort_text_order_amended` at indices 0 and 1. -/
theorem sort_text_order_amended_w :
    (complete_literal_item "/x" "http://localhost:4545" 21).sortText = some "1" ∧
    (make_key_item c5Tokens c5PathKey none "b" 0 "u" (fun _ => false)).sortText =
      some (sortTextDyn 0) ∧
    sortTextDyn 0 < "1" ∧
    sortTextDyn 0 < sortTextDyn 1 :=
  sort_text_order_amended "/x" "http://localhost:4545" 21 c5Tokens c5PathKey none "b" "u"
    (fun _ => false) 0 1 (by norm_num) (by norm_num) (by norm_num)

theorem find?_erase_self {β : Type} (m : List (String × β)) (k : String) :
    (assocErase m k).find? (fun q => q.1 == k) = none := by
  induction m with
  | nil => rfl
  | cons q m ih =>
    by_cases hq : q.1 = k
    · simp only [assocErase, List.filter_cons] at ih ⊢
      simp only [hq, beq_self_eq_true, Bool.not_true, Bool.false_eq_true, if_false]
      exact ih
    · simp only [assocErase, List.filter_cons] at ih ⊢
      rw [if_pos (by simp [hq]), List.find?_cons_of_neg _ (by simpa using hq)]
      exact ih

theorem assocLookup_erase_self {β : Type} (m : List (String × β)) (k : String) :
    assocLookup k (assocErase m k) = none := by
  rw [assocLookup, find?_erase_self]
  rfl

theorem assocLookup_erase_ne {β : Type} (m : List (String × β)) {k o : String}
    (h : k ≠ o) : assocLookup k (assocErase m o) = assocLookup k m := by
  induction m with
  | nil => rfl
  | cons q m ih =>
    by_cases hq : q.1 = o
    · have hqk : q.1 ≠ k := fun e => h (e.symm.trans hq)
      simp only [assocErase, assocLookup, List.filter_cons] at ih ⊢
      simp only [hq, beq_self_eq_true, Bool.not_true, Bool.false_eq_true, if_false]
      rw [List.find?_cons_of_neg _ (by simpa using hqk)]
      exact ih
    · simp only [assocErase, assocLookup, List.filter_cons] at ih ⊢
      rw [if_pos (by simpa using hq)]
      by_cases hqk : q.1 = k
      · rw [List.find?_cons_of_pos _ (by simpa using hqk),
          List.find?_cons_of_pos _ (by simpa using hqk)]
      · rw [List.find?_cons_of_neg _ (by simpa using hqk),
          List.find?_cons_of_neg _ (by simpa using hqk)]
        exact ih

theorem assocLookup_append {β : Type} (l₁ l₂ : List (String × β)) (k : String) :
    assocLookup k (l₁ ++ l₂) = (assocLookup k l₁).or (assocLookup k l₂) := by
  simp only [assocLookup, List.find?_append]
  cases List.find? (fun q => q.1 == k) l₁ <;> simp

theorem assocLookup_insert {β : Type} (m : List (String × β)) (p : String × β)
    (k : String) :
    assocLookup k (assocInsert m p) = if p.1 = k then some p.2 else assocLookup k m := by
  rw [assocInsert, assocLookup_append]
  by_cases h : p.1 = k
  · subst h
    rw [assocLookup_erase_self, if_pos rfl]
    simp [assocLookup, List.find?]
  · rw [assocLookup_erase_ne m (fun e => h e.symm), if_neg h]
    have : assocLookup k [p] = none := by
      rw [assocLookup, List.find?_cons_of_neg _ (by simpa using h)]
      rfl
    rw [this]
    cases assocLookup k m <;> simp

theorem assocInsert_keys_nodup {β : Type} (m : List (String × β)) (p : String × β)
    (h : (m.map (fun q => q.1)).Nodup) :
    ((assocInsert m p).map (fun q => q.1)).Nodup := by
  have hmapfil : ∀ l : List (String × β),
      (l.filter (fun q => !(q.1 == p.1))).map (fun q => q.1) =
        (l.map (fun q => q.1)).filter (fun s => !(s == p.1)) := by
    intro l
    induction l with
    | nil => rfl
    | cons q l ih =>
      rw [List.map_cons, List.filter_cons, List.filter_cons]
      by_cases hq : q.1 = p.1
      · rw [if_neg (by simp [hq]), if_neg (by simp [hq])]
        exact ih
      · rw [if_pos (by simp [hq]), if_pos (by simp [hq]), List.map_cons, ih]
  rw [assocInsert, assocErase, List.map_append, hmapfil]
  apply List.Nodup.append
  · exact h.filter _
  · simp
  · intro a ha hb
    have h1 : (!(a == p.1)) = true := (List.mem_filter.mp ha).2
    have h2 : a = p.1 := by simpa using hb
    simp [h2] at h1

theorem run_registries_general :
    ∀ (effects : List RegEffect) (m : List (String × CompletionItem)) (b : Bool),
      effects.foldl
          (fun acc e => (e.inserts.foldl assocInsert acc.1, acc.2 || e.matched)) (m, b) =
        (((effects.map (fun e => e.inserts)).flatten).foldl assocInsert m,
          b || effects.any (fun e => e.matched)) := by
  intro effects
  induction effects with
  | nil => intro m b; simp
  | cons e es ih =>
    intro m b
    simp only [List.foldl_cons, List.map_cons, List.flatten_cons, List.foldl_append,
      List.any_cons]
    rw [ih]
    simp [Bool.or_assoc]

theorem run_registries_eq (effects : List RegEffect) :
    run_registries effects =
      (((effects.map (fun e => e.inserts)).flatten).foldl assocInsert [],
        effects.any (fun e => e.matched)) := by
  rw [run_registries, run_registries_general]
  simp

theorem assocLookup_foldl {β : Type} :
    ∀ (l : List (String × β)) (m : List (String × β)) (k : String),
      assocLookup k (l.foldl assocInsert m) =
        match (l.filter (fun q => q.1 == k)).getLast? with
        | some q => some q.2
        | none => assocLookup k m := by
  intro l
  induction l with
  | nil => intro m k; simp
  | cons p rest ih =>
    intro m k
    simp only [List.foldl_cons]
    rw [ih]
    by_cases hp : p.1 = k
    · rw [List.filter_cons, if_pos (by simp [hp])]
      cases hLast : (rest.filter (fun q => q.1 == k)).getLast? with
      | some q =>
        cases hfil : rest.filter (fun q => q.1 == k) with
        | nil => rw [hfil] at hLast; simp at hLast
        | cons a as =>
          rw [hfil] at hLast
          rw [List.getLast?_cons_cons, hLast]
      | none =>
        have hnil : rest.filter (fun q => q.1 == k) = [] :=
          List.getLast?_eq_none_iff.mp hLast
        rw [hnil]
        simp only [List.getLast?_singleton]
        rw [assocLookup_insert, if_pos hp]
    · rw [List.filter_cons, if_neg (by simp [hp])]
      cases hLast : (rest.filter (fun q => q.1 == k)).getLast? with
      | some q => rfl
      | none =>
        simp only []
        rw [assocLookup_insert, if_neg hp]

theorem foldl_assocInsert_keys_nodup {β : Type} :
    ∀ (l : List (String × β)) (m : List (String × β)),
      (m.map (fun q => q.1)).Nodup → ((l.foldl assocInsert m).map (fun q => q.1)).Nodup := by
  intro l
  induction l with
  | nil => intro m h; exact h
  | cons p rest ih =>
    intro m h
    exact ih (assocInsert m p) (assocInsert_keys_nodup m p h)

/-- Counterexample to C3 as stated: when two registries contribute a candidate
under the same raw text `"k"`, the `HashMap::insert` of the later registry
**overwrites** the earlier one — the kept candidate is the later registry's,
not the earlier one's. -/
theorem dedup_earlier_wins_cex :
    assocLookup "k"
        (run_registries
          [{ matched := true, inserts := [("k", cexItemA)] },
           { matched := true, inserts := [("k", cexItemB)] }]).1 = some cexItemB ∧
      cexItemA ≠ cexItemB := by
  refine ⟨?_, by decide⟩
  decide

/-- C3 (amended): across all registries tried in one `get_completions` call the
candidate map holds at most one completion per raw (unrendered) item/literal
text, and for every raw text the kept candidate is the **last** insertion for
that text in registry order — a later registry overwrites an earlier one. -/
theorem dedup_last_wins (effects : List RegEffect) :
    (((run_registries effects).1.map (fun q => q.1)).Nodup) ∧
    (∀ k : String,
      assocLookup k (run_registries effects).1 =
        match ((effects.map (fun e => e.inserts)).flatten.filter
            (fun q => q.1 == k)).getLast? with
        | some q => some q.2
        | none => none) := by
  constructor
  · rw [run_registries_eq]
    exact foldl_assocInsert_keys_nodup _ [] (by simp)
  · intro k
    rw [run_registries_eq]
    simp only []
    rw [assocLookup_foldl]
    cases ((effects.map (fun e => e.inserts)).flatten.filter
        (fun q => q.1 == k)).getLast? with
    | some q => rfl
    | none => rfl

/-- C6: the final return of `get_completions` — `Some(empty)` when at least one
registry's matcher structurally matched but no candidates were produced,
`None` when no registry matched and no candidates were produced, and never
`None` while holding candidates. -/
theorem completions_result_spec (effects : List RegEffect) :
    ((run_registries effects).2 = effects.any (fun e => e.matched)) ∧
    (effects.any (fun e => e.matched) = true → (run_registries effects).1 = [] →
      get_completions_result effects = some []) ∧
    (effects.any (fun e => e.matched) = false → (run_registries effects).1 = [] →
      get_completions_result effects = none) ∧
    ((run_registries effects).1 ≠ [] →
      get_completions_result effects =
        some ((run_registries effects).1.map (fun q => q.2)) ∧
      get_completions_result effects ≠ none) := by
  have h2 : (run_registries effects).2 = effects.any (fun e => e.matched) := by
    rw [run_registries_eq]
  refine ⟨h2, ?_, ?_, ?_⟩
  · intro hm he
    rw [get_completions_result]
    simp [he, h2, hm]
  · intro hm he
    rw [get_completions_result]
    simp [he, h2, hm]
  · intro hne
    rw [get_completions_result]
    have : (run_registries effects).1.isEmpty = false := by
      cases hc : (run_registries effects).1 with
      | nil => exact absurd hc hne
      | cons a l => simp
    simp [this]

/-- Witness for `completions_result_spec`: a matching registry with no inserts
yields `some []`; no match and no inserts yields `none`; a registry holding a
candidate never yields `none`. -/
theorem completions_result_spec_w :
    get_completions_result [{ matched := true, inserts := [] }] = some [] ∧
    get_completions_result [{ matched := false, inserts := [] }] = none ∧
    get_completions_result [{ matched := false, inserts := [("k", cexItemA)] }] ≠ none :=
  ⟨(completions_result_spec [{ matched := true, inserts := [] }]).2.1 rfl rfl,
   (completions_result_spec [{ matched := false, inserts := [] }]).2.2.1 rfl rfl,
   ((completions_result_spec
      [{ matched := false, inserts := [("k", cexItemA)] }]).2.2.2 (by decide)).2⟩

theorem exceptForM_ok_iff {α : Type} (l : List α) (f : α → Except String Unit) :
    exceptForM l f = Except.ok () ↔ ∀ a ∈ l, f a = Except.ok () := by
  induction l with
  | nil => simp [exceptForM]
  | cons a as ih =>
    simp only [exceptForM]
    cases hf : f a with
    | ok u =>
      cases u
      simp [hf, ih, List.forall_mem_cons]
    | error e =>
      simp [hf, List.forall_mem_cons]

theorem listPosition_take {α : Type} (p : α → Bool) :
    ∀ (l : List α) (i : Nat), listPosition p l = some i → ∀ x ∈ l.take i, p x = false := by
  intro l
  induction l with
  | nil => intro i h; simp [listPosition] at h
  | cons a as ih =>
    intro i h x hx
    rw [listPosition] at h
    by_cases hp : p a
    · rw [if_pos hp] at h
      have : i = 0 := by
        cases h
        rfl
      subst this
      simp at hx
    · rw [if_neg hp] at h
      cases hpos : listPosition p as with
      | none => rw [hpos] at h; simp at h
      | some j =>
        rw [hpos] at h
        simp at h
        subst h
        rw [List.take_succ_cons] at hx
        rcases List.mem_cons.mp hx with rfl | hmem
        · simpa using hp
        · exact ih j hpos x hmem

theorem checkRegistry_ok_iff (r : RegistryConfiguration) :
    checkRegistry r = Except.ok () ↔
      ((∀ kn ∈ r.keyNames, r.vars.any (fun v => v.key == kn) = true) ∧
        ∀ vr ∈ r.vars,
          ∃ i, listPosition (fun key => key == vr.key) r.keyNames = some i ∧
            ∀ v ∈ parse_replacement_variables vr.url,
              (vr.key == v) = false ∧
                (r.keyNames.take i).any (fun key => key == v) = true) := by
  rw [checkRegistry]
  cases h1 : exceptForM r.keyNames
      (fun key_name =>
        if r.vars.any (fun v => v.key == key_name) then Except.ok ()
        else Except.error "missing variable declaration for key") with
  | error e =>
    constructor
    · intro hcontra; exact absurd hcontra (by simp)
    · rintro ⟨hall, -⟩
      have hok : exceptForM r.keyNames
          (fun key_name =>
            if r.vars.any (fun v => v.key == key_name) then Except.ok ()
            else Except.error "missing variable declaration for key") = Except.ok () :=
        (exceptForM_ok_iff _ _).mpr (fun kn hkn => by rw [if_pos (hall kn hkn)])
      rw [h1] at hok
      exact absurd hok (by simp)
  | ok u =>
    cases u
    have hfirst : ∀ kn ∈ r.keyNames, r.vars.any (fun v => v.key == kn) = true := by
      intro kn hkn
      have hk := (exceptForM_ok_iff _ _).mp h1 kn hkn
      by_cases hany : r.vars.any (fun v => v.key == kn)
      · exact hany
      · rw [if_neg hany] at hk
        exact absurd hk (by simp)
    rw [exceptForM_ok_iff]
    constructor
    · intro hsecond
      refine ⟨hfirst, ?_⟩
      intro vr hvr
      have hv := hsecond vr hvr
      cases hpos : listPosition (fun key => key == vr.key) r.keyNames with
      | none => rw [hpos] at hv; exact absurd hv (by simp)
      | some i =>
        rw [hpos] at hv
        refine ⟨i, rfl, ?_⟩
        intro v hvmem
        have hone := (exceptForM_ok_iff _ _).mp hv v hvmem
        by_cases hself : vr.key == v
        · rw [if_pos hself] at hone
          exact absurd hone (by simp)
        · have hselff : (vr.key == v) = false := by simpa using hself
          rw [if_neg hself] at hone
          by_cases hany : (r.keyNames.take i).any (fun key => key == v)
          · exact ⟨hselff, hany⟩
          · rw [if_neg hany] at hone
            exact absurd hone (by simp)
    · rintro ⟨-, hvars⟩ vr hvr
      obtain ⟨i, hpos, hrefs⟩ := hvars vr hvr
      rw [hpos, exceptForM_ok_iff]
      intro v hvmem
      obtain ⟨hself, hany⟩ := hrefs v hvmem
      rw [if_neg (by simp [hself]), if_pos hany]

theorem validate_config_ok_iff (c : RegistryConfigurationJson) :
    validate_config c = Except.ok () ↔
      (c.version = 1 ∧ ∀ r ∈ c.registries, checkRegistry r = Except.ok ()) := by
  rw [validate_config]
  by_cases hv : c.version = 1
  · rw [if_neg (by simp [hv]), exceptForM_ok_iff]
    simp [hv]
  · rw [if_pos hv]
    simp [hv]

/-- C7: `validate_config` accepts only configurations in which no variable's
URL template references the variable's own key and every referenced key is
positioned strictly before the variable's key in the schema's key order
(first conjunct, whose contrapositive is the claim's rejection of
self-references and of non-earlier references); and it accepts whenever the
configuration is version 1, every key has a variable declaration, and every
variable's references are strictly-earlier keys (second conjunct, the claim's
acceptance direction). -/
theorem validate_reference_order (c : RegistryConfigurationJson) :
    (validate_config c = Except.ok () →
      ∀ r ∈ c.registries, ∀ vr ∈ r.vars, ∀ v ∈ parse_replacement_variables vr.url,
        vr.key ≠ v ∧
          ∃ i, listPosition (fun key => key == vr.key) r.keyNames = some i ∧
            v ∈ r.keyNames.take i) ∧
    (c.version = 1 → (∀ r ∈ c.registries, registryOk r = true) →
      validate_config c = Except.ok ()) := by
  constructor
  · intro hok r hr vr hvr v hv
    have h2 := ((validate_config_ok_iff c).mp hok).2 r hr
    obtain ⟨-, hvars⟩ := (checkRegistry_ok_iff r).mp h2
    obtain ⟨i, hpos, hrefs⟩ := hvars vr hvr
    obtain ⟨hself, hany⟩ := hrefs v hv
    refine ⟨by simpa using hself, i, hpos, ?_⟩
    rw [List.any_eq_true] at hany
    obtain ⟨x, hx, hxv⟩ := hany
    have hxe : x = v := by simpa using hxv
    exact hxe ▸ hx
  · intro hv hall
    rw [validate_config_ok_iff]
    refine ⟨hv, ?_⟩
    intro r hr
    have hro := hall r hr
    rw [registryOk, Bool.and_eq_true] at hro
    obtain ⟨hkeys, hvars⟩ := hro
    rw [checkRegistry_ok_iff]
    constructor
    · intro kn hkn
      rw [List.all_eq_true] at hkeys
      exact hkeys kn hkn
    · intro vr hvr
      rw [List.all_eq_true] at hvars
      have hvo := hvars vr hvr
      rw [varOk] at hvo
      cases hpos : listPosition (fun key => key == vr.key) r.keyNames with
      | none => rw [hpos] at hvo; exact absurd hvo (by simp)
      | some i =>
        rw [hpos] at hvo
        refine ⟨i, rfl, ?_⟩
        intro v hvmem
        rw [List.all_eq_true] at hvo
        have hany := hvo v hvmem
        refine ⟨?_, hany⟩
        rw [List.any_eq_true] at hany
        obtain ⟨x, hx, hxv⟩ := hany
        have hxe : x = v := by simpa using hxv
        have hfalse := listPosition_take (fun key => key == vr.key) r.keyNames i hpos x hx
        subst hxe
        simp only [beq_eq_false_iff_ne, ne_eq] at hfalse ⊢
        exact fun e => hfalse e.symm

/-- Witness for `validate_reference_order`: the source's accepted test
configuration validates, and (applying the first conjunct) the `path`
variable's reference `module` is not a self-reference. -/
theorem validate_reference_order_w :
    validate_config goodConfig = Except.ok () ∧ goodPathVar.key ≠ "module" :=
  ⟨(validate_reference_order goodConfig).2 rfl (by decide),
   ((validate_reference_order goodConfig).1
      ((validate_reference_order goodConfig).2 rfl (by decide))
      goodRegistry (by decide) goodPathVar (by decide) "module" (by decide)).1⟩

/-- C8: if `enable(origin)` fails for any reason — URL parse failure, config
URL join failure, or a `fetch_config` failure (fetch, JSON decode or
validation) — the error is returned to the caller and the origin store is
exactly what it was before the call: the store changes only on success, a
parse failure returns the parse error with the store untouched, and a
`fetch_config` error propagates with the store untouched. -/
theorem enable_store_unchanged_on_error
    (p : String → Option String) (j : Option String)
    (f : Except String (List RegistryConfiguration))
    (st : List (String × List RegistryConfiguration)) (o oN s e : String) :
    ((enableM p j f st o).1 = Except.ok () ∨ (enableM p j f st o).2 = st) ∧
    (p o = none → enableM p j f st o = (Except.error "invalid url", st)) ∧
    (p o = some oN → st.any (fun q => q.1 == oN) = false → j = some s →
      f = Except.error e → enableM p j f st o = (Except.error e, st)) := by
  refine ⟨?_, ?_, ?_⟩
  · cases hp : p o with
    | none => exact Or.inr (by simp [enableM, hp])
    | some oN' =>
      by_cases hc : st.any (fun q => q.1 == oN')
      · exact Or.inl (by simp [enableM, hp, hc])
      · cases hj : j with
        | none => exact Or.inr (by simp [enableM, hp, hc, hj])
        | some s' =>
          cases hf : f with
          | error e' => exact Or.inr (by simp [enableM, hp, hc, hj, hf])
          | ok cfg => exact Or.inl (by simp [enableM, hp, hc, hj, hf])
  · intro hp
    simp [enableM, hp]
  · intro hp hc hj hf
    simp [enableM, hp, hc, hj, hf]

/-- Witness for `enable_store_unchanged_on_error`: a parse failure and a fetch
failure both return the error with the store unchanged. -/
theorem enable_store_unchanged_on_error_w :
    enableM (fun _ => none) none (Except.error "boom") [] "x" =
      (Except.error "invalid url", []) ∧
    enableM (fun s => some s) (some "cfg") (Except.error "boom") [] "x" =
      (Except.error "boom", []) :=
  ⟨(enable_store_unchanged_on_error (fun _ => none) none (Except.error "boom") [] "x"
      "" "" "boom").2.1 rfl,
   (enable_store_unchanged_on_error (fun s => some s) (some "cfg") (Except.error "boom")
      [] "x" "x" "cfg" "boom").2.2 rfl rfl rfl rfl⟩

/-- C10: `disable(origin)` returns an error and leaves the store untouched
when the origin does not parse; when it parses to the normalized origin `oN`,
it returns `Ok`, the entry for `oN` is gone, and every other origin's entry is
unchanged. -/
theorem disable_spec (p : String → Option String)
    (st : List (String × List RegistryConfiguration)) (o oN : String) :
    (p o = none → disableM p st o = (Except.error "invalid url", st)) ∧
    (p o = some oN →
      (disableM p st o).1 = Except.ok () ∧
      assocLookup oN (disableM p st o).2 = none ∧
      ∀ k, k ≠ oN → assocLookup k (disableM p st o).2 = assocLookup k st) := by
  constructor
  · intro hp
    simp [disableM, hp]
  · intro hp
    refine ⟨by simp [disableM, hp], ?_, ?_⟩
    · simp only [disableM, hp]
      exact assocLookup_erase_self st oN
    · intro k hk
      simp only [disableM, hp]
      exact assocLookup_erase_ne st hk

/-- Witness for `disable_spec`: a non-parsing origin errors with the store
unchanged; a parsing origin removes exactly its own entry. -/
theorem disable_spec_w :
    disableM (fun _ => none) [("a", [])] "x" = (Except.error "invalid url", [("a", [])]) ∧
    (disableM (fun _ => some "a") [("a", []), ("b", [])] "a").1 = Except.ok () ∧
    assocLookup "a" (disableM (fun _ => some "a") [("a", []), ("b", [])] "a").2 = none ∧
    assocLookup "b" (disableM (fun _ => some "a") [("a", []), ("b", [])] "a").2 =
      assocLookup "b" [("a", []), ("b", [])] :=
  ⟨(disable_spec (fun _ => none) [("a", [])] "x" "").1 rfl,
   ((disable_spec (fun _ => some "a") [("a", []), ("b", [])] "a" "a").2 rfl).1,
   ((disable_spec (fun _ => some "a") [("a", []), ("b", [])] "a" "a").2 rfl).2.1,
   ((disable_spec (fun _ => some "a") [("a", []), ("b", [])] "a" "a").2 rfl).2.2 "b"
     (by decide)⟩

end Registries
